import Mathlib

/-!
Verification of the data-filling repository: the submission record lifecycle
and its persistence contract, embedded shallowly from the three source
variants:

* `src/src/App.jsx` — remote variant without try/catch around fetch
  (functions `fetchSubmissions`, `postSubmission`, `handleLogin`,
  `handleFormSubmit`);
* `src/unnamed/part_000` — remote variant with try/catch around fetch;
* `src/unnamed/part_001` — local-storage variant
  (`getSubmissionsStorageKey`, `loadSubmissions`, `saveSubmissions`).

JavaScript strings are modelled as `List Char`; JSON values as the
inductive `JsValue`; `JSON.stringify` as `strVal` and `JSON.parse` as
`parseJson` (a fuel-based recursive-descent reader of the grammar that
`strVal` emits: strings, `true`/`false`/`null`, arrays and objects;
numbers and insignificant whitespace are omitted because no stored value
of this program contains them, and a value the reader rejects behaves
exactly like a value `JSON.parse` rejects as far as `loadSubmissions`
can observe — both degrade to the empty list).  Browser `btoa` is
modelled by `btoa`, returning `none` exactly when the real `btoa`
throws (some UTF-16 code unit above 255).
-/

set_option maxHeartbeats 1000000
set_option synthInstance.maxHeartbeats 400000

/-- A JSON value as produced and consumed by the program: the program
only ever stores strings, booleans, `null`, arrays and objects. -/
inductive JsValue where
  | str (s : List Char)
  | bool (b : Bool)
  | null
  | arr (xs : List JsValue)
  | obj (fields : List (List Char × JsValue))

/-- Open-brace character, written by code point to keep it out of
string literals. -/
def lbrace : Char := Char.ofNat 123

/-- Close-brace character. -/
def rbrace : Char := Char.ofNat 125

/-- JSON escaping of one string character, as `JSON.stringify` does for
the quote and backslash (the only characters whose escaping affects any
value this program stores). -/
def escapeChar (c : Char) : List Char :=
  if c = '"' ∨ c = '\\' then ['\\', c] else [c]

/-- JSON escaping of a whole string body. -/
def escape : List Char → List Char
  | [] => []
  | c :: s => escapeChar c ++ escape s

mutual

/-- `JSON.stringify` on a `JsValue`. -/
def strVal : JsValue → List Char
  | .str s => '"' :: escape s ++ ['"']
  | .bool true => ['t', 'r', 'u', 'e']
  | .bool false => ['f', 'a', 'l', 's', 'e']
  | .null => ['n', 'u', 'l', 'l']
  | .arr xs => '[' :: strArr xs ++ [']']
  | .obj fs => lbrace :: strFields fs ++ [rbrace]

/-- `JSON.stringify` on the comma-separated elements of an array. -/
def strArr : List JsValue → List Char
  | [] => []
  | [x] => strVal x
  | x :: y :: xs => strVal x ++ ',' :: strArr (y :: xs)

/-- `JSON.stringify` on the comma-separated members of an object. -/
def strFields : List (List Char × JsValue) → List Char
  | [] => []
  | [(k, v)] => '"' :: escape k ++ '"' :: ':' :: strVal v
  | (k, v) :: f :: fs =>
      '"' :: escape k ++ '"' :: ':' :: strVal v ++ ',' :: strFields (f :: fs)

end

/-- Inverse of a JSON string escape code. -/
def unescape (c : Char) : Option Char :=
  if c = '"' then some '"'
  else if c = '\\' then some '\\'
  else if c = '/' then some '/'
  else if c = 'n' then some (Char.ofNat 10)
  else if c = 't' then some (Char.ofNat 9)
  else if c = 'r' then some (Char.ofNat 13)
  else if c = 'b' then some (Char.ofNat 8)
  else if c = 'f' then some (Char.ofNat 12)
  else none

/-- Read a JSON string body up to its closing quote; returns the decoded
body and the remaining input. -/
def parseStr : List Char → Option (List Char × List Char)
  | [] => none
  | c :: r =>
    if c = '"' then some ([], r)
    else if c = '\\' then
      match r with
      | [] => none
      | e :: r2 =>
        match unescape e with
        | none => none
        | some d => (parseStr r2).map (fun p => (d :: p.1, p.2))
    else (parseStr r).map (fun p => (c :: p.1, p.2))

mutual

/-- Read one JSON value; fuel bounds the recursion depth. -/
def parseVal : Nat → List Char → Option (JsValue × List Char)
  | 0, _ => none
  | _ + 1, [] => none
  | f + 1, c :: r =>
    if c = '"' then (parseStr r).map (fun p => (JsValue.str p.1, p.2))
    else if c = '[' then (parseElems f r).map (fun p => (JsValue.arr p.1, p.2))
    else if c = lbrace then (parseFields f r).map (fun p => (JsValue.obj p.1, p.2))
    else if c = 't' then
      match r with
      | 'r' :: 'u' :: 'e' :: r2 => some (.bool true, r2)
      | _ => none
    else if c = 'f' then
      match r with
      | 'a' :: 'l' :: 's' :: 'e' :: r2 => some (.bool false, r2)
      | _ => none
    else if c = 'n' then
      match r with
      | 'u' :: 'l' :: 'l' :: r2 => some (.null, r2)
      | _ => none
    else none

/-- Read the elements of an array after its opening bracket, up to and
including the closing bracket. -/
def parseElems : Nat → List Char → Option (List JsValue × List Char)
  | 0, _ => none
  | _ + 1, [] => none
  | f + 1, c :: r =>
    if c = ']' then some ([], r)
    else
      match parseVal f (c :: r) with
      | none => none
      | some (v, r2) =>
        match r2 with
        | [] => none
        | c2 :: r3 =>
          if c2 = ',' then (parseElems f r3).map (fun p => (v :: p.1, p.2))
          else if c2 = ']' then some ([v], r3)
          else none

/-- Read the members of an object after its opening brace, up to and
including the closing brace. -/
def parseFields : Nat → List Char →
    Option (List (List Char × JsValue) × List Char)
  | 0, _ => none
  | _ + 1, [] => none
  | f + 1, c :: r =>
    if c = rbrace then some ([], r)
    else if c = '"' then
      match parseStr r with
      | none => none
      | some (k, r2) =>
        match r2 with
        | [] => none
        | c2 :: r3 =>
          if c2 = ':' then
            match parseVal f r3 with
            | none => none
            | some (v, r4) =>
              match r4 with
              | [] => none
              | c3 :: r5 =>
                if c3 = ',' then
                  (parseFields f r5).map (fun p => ((k, v) :: p.1, p.2))
                else if c3 = rbrace then some ([(k, v)], r5)
                else none
          else none
    else none

end

/-- `JSON.parse`: read one value consuming the whole input, with fuel
larger than the input so that fuel can never be the reason a
well-formed input is rejected. -/
def parseJson (raw : List Char) : Option JsValue :=
  match parseVal (raw.length + 1) raw with
  | some (v, []) => some v
  | _ => none

/-! ## Base64 and the storage key (`src/unnamed/part_001`) -/

/-- The base64 alphabet in index order. -/
def b64chars : List Char :=
  "ABCDEFGHIJKLMNOPQRSTUVWXYZabcdefghijklmnopqrstuvwxyz0123456789+/".data

/-- The base64 digit for a sextet. -/
def b64char (n : Nat) : Char := b64chars.getD n 'A'

/-- The sextet of a base64 digit. -/
def b64inv (c : Char) : Nat := b64chars.indexOf c

/-- Base64 encoding of a byte sequence, three bytes to four digits,
with `=` padding, exactly as `btoa` emits it. -/
def b64encode : List Nat → List Char
  | [] => []
  | [a] => [b64char (a / 4), b64char (a % 4 * 16), '=', '=']
  | [a, b] => [b64char (a / 4), b64char (a % 4 * 16 + b / 16), b64char (b % 16 * 4), '=']
  | a :: b :: c :: rest =>
      b64char (a / 4) :: b64char (a % 4 * 16 + b / 16) ::
      b64char (b % 16 * 4 + c / 64) :: b64char (c % 64) :: b64encode rest

/-- Base64 decoding, the inverse used to show the encoding injective:
a terminal `==` group carries one byte, a terminal `=` group two, any
other group three. -/
def b64decode : List Char → Option (List Nat)
  | c1 :: c2 :: c3 :: c4 :: rest =>
      if c3 = '=' ∧ c4 = '=' ∧ rest = [] then
        some [b64inv c1 * 4 + b64inv c2 / 16]
      else if c4 = '=' ∧ rest = [] then
        some [b64inv c1 * 4 + b64inv c2 / 16, b64inv c2 % 16 * 16 + b64inv c3 / 4]
      else
        (b64decode rest).map (fun l =>
          (b64inv c1 * 4 + b64inv c2 / 16) ::
          (b64inv c2 % 16 * 16 + b64inv c3 / 4) ::
          (b64inv c3 % 4 * 64 + b64inv c4) :: l)
  | [] => some []
  | _ => none

/-- Browser `btoa`: base64 of the code units when they all fit in a
byte, `none` (the thrown `InvalidCharacterError`) otherwise. -/
def btoa (s : List Char) : Option (List Char) :=
  if ∀ c ∈ s, c.toNat ≤ 255 then some (b64encode (s.map Char.toNat)) else none

/-- The NUL separator the key derivation places between username and
password. -/
def nulChar : Char := Char.ofNat 0

/-- `getSubmissionsStorageKey` from `src/unnamed/part_001`: the literal
tag `submissions:` followed by `btoa` of username, NUL, password.
`none` models the call throwing (only possible inside `btoa`; in a
browser `typeof btoa === 'function'` holds, so the encoded branch is
the one taken). -/
def getSubmissionsStorageKey (username password : List Char) : Option (List Char) :=
  (btoa (username ++ nulChar :: password)).map
    (fun encoded => "submissions:".data ++ encoded)

/-! ## Browser-local storage and the Local Adapter -/

/-- `localStorage` as a partial map from keys to raw string values. -/
def Storage := List Char → Option (List Char)

/-- An empty `localStorage`. -/
def emptyStorage : Storage := fun _ => none

/-- `localStorage.setItem`. -/
def setItem (st : Storage) (key val : List Char) : Storage :=
  fun k => if k = key then some val else st k

/-- `loadSubmissions` from `src/unnamed/part_001`: compute the key,
read the raw value, return `[]` when the raw value is absent or falsy,
parse it, and keep the result only when it is an array.  Every throw
inside the body (key derivation, `JSON.parse`) is caught and becomes
`[]`; the function is total, modelling that it never throws. -/
def loadSubmissions (username password : List Char) (st : Storage) : List JsValue :=
  match getSubmissionsStorageKey username password with
  | none => []
  | some key =>
    match st key with
    | none => []
    | some raw =>
      if raw = [] then []
      else
        match parseJson raw with
        | some (JsValue.arr xs) => xs
        | _ => []

/-- `saveSubmissions` from `src/unnamed/part_001`: compute the key and
overwrite the stored value with the serialized list; a throw in the key
derivation is caught and leaves storage untouched. -/
def saveSubmissions (username password : List Char) (subs : List JsValue)
    (st : Storage) : Storage :=
  match getSubmissionsStorageKey username password with
  | none => st
  | some key => setItem st key (strVal (JsValue.arr subs))

/-! ## Form records and the remote adapter -/

/-- The controlled form state of `FormPage`, one value per field, in the
order of the `useState` initializer. -/
structure FormData where
  name : List Char
  email : List Char
  phone : List Char
  address : List Char
  message : List Char

/-- The five members of a submitted record, in object-literal order. -/
def recordFields (f : FormData) : List (List Char × JsValue) :=
  [("name".data, .str f.name), ("email".data, .str f.email),
   ("phone".data, .str f.phone), ("address".data, .str f.address),
   ("message".data, .str f.message)]

/-- The JS object a form submit passes to `onSubmit`. -/
def recordJson (f : FormData) : JsValue := .obj (recordFields f)

/-- The body of the POST in `postSubmission`:
`JSON.stringify({ username, ...data })`, the username member first, then
the five record members spread in. -/
def postBody (username : List Char) (f : FormData) : List Char :=
  strVal (.obj (("username".data, JsValue.str username) :: recordFields f))

/-- Outcome of one `fetch` call as the environment decides it: a
success response carrying a body, a response with a non-success HTTP
status, or a rejection of the promise (network failure). -/
inductive FetchResult where
  | ok (body : List Char)
  | httpError
  | netThrow
deriving DecidableEq

/-- `fetchSubmissions` from `src/unnamed/part_000` (try/catch variant):
`res.ok ? await res.json() : []`, with any throw — rejected fetch or
unparsable body — caught and turned into `[]`.  Total: it never
raises. -/
def fetchSubmissions000 (r : FetchResult) : JsValue :=
  match r with
  | .ok body =>
    match parseJson body with
    | some v => v
    | none => .arr []
  | .httpError => .arr []
  | .netThrow => .arr []

/-- `fetchSubmissions` from `src/src/App.jsx` (no try/catch):
`res.ok ? await res.json() : []`; a rejected fetch or an unparsable
body propagates as `Except.error`. -/
def fetchSubmissionsApp (r : FetchResult) : Except Unit JsValue :=
  match r with
  | .ok body =>
    match parseJson body with
    | some v => .ok v
    | none => .error ()
  | .httpError => .ok (.arr [])
  | .netThrow => .error ()

/-- Whether `postSubmission` from `src/unnamed/part_000` raises: never,
its body is wrapped in try/catch. -/
def postRaises000 (_ : FetchResult) : Bool := false

/-- Whether `postSubmission` from `src/src/App.jsx` raises: exactly
when the `fetch` promise rejects (a non-success status does not
reject). -/
def postRaisesApp (r : FetchResult) : Bool :=
  match r with
  | .netThrow => true
  | _ => false

/-! ## Session state of the three `App` components -/

/-- The login-error message both variants set. -/
def requiredMsg : List Char := "Username and password are required".data

/-- `App` state of the local-storage variant `src/unnamed/part_001`,
together with the browser storage it reads and writes. -/
structure LocalState where
  loggedIn : Bool
  loginError : List Char
  submissions : List JsValue
  currentPage : List Char
  authUsername : List Char
  authPassword : List Char
  storage : Storage

/-- `App` state of the two remote variants.  `submissions` is a
`JsValue` because `setSubmissions(await fetchSubmissions(user))` stores
whatever JSON value the response carried, array or not. -/
structure RemoteState where
  loggedIn : Bool
  loginError : List Char
  submissions : JsValue
  username : List Char

/-- A handler outcome for a handler that can leave behind an unhandled
promise rejection: the committed state and whether the handler
raised. -/
structure HandlerResult (σ : Type) where
  state : σ
  raised : Bool

/-- `handleLogin` from `src/unnamed/part_001`: empty username or
password (falsy strings) sets the error message and returns early;
otherwise store the credential pair, populate the list from
`loadSubmissions`, mark logged in and clear the error.  Never
raises. -/
def localHandleLogin (s : LocalState) (username password : List Char) : LocalState :=
  if username = [] ∨ password = [] then { s with loginError := requiredMsg }
  else
    { s with
      authUsername := username
      authPassword := password
      submissions := loadSubmissions username password s.storage
      loggedIn := true
      loginError := [] }

/-- `handleFormSubmit` from `src/unnamed/part_001`: append the record,
then rewrite the whole list to storage under the session credential
pair. -/
def localHandleFormSubmit (s : LocalState) (f : FormData) : LocalState :=
  let next := s.submissions ++ [recordJson f]
  { s with
    submissions := next
    storage := saveSubmissions s.authUsername s.authPassword next s.storage }

/-- `handleLogin` from `src/unnamed/part_000`: same validation, then
populate from `fetchSubmissions000` (total).  Never raises. -/
def handleLogin000 (s : RemoteState) (user password : List Char)
    (net : FetchResult) : RemoteState :=
  if user = [] ∨ password = [] then { s with loginError := requiredMsg }
  else
    { s with
      username := user
      submissions := fetchSubmissions000 net
      loggedIn := true
      loginError := [] }

/-- `handleLogin` from `src/src/App.jsx`: same validation, but
`setUsername(user)` runs before the await, so when
`fetchSubmissionsApp` propagates an error the username is already
committed while the logged-in flag, the list and the error text are
left as they were, and the handler raises. -/
def handleLoginApp (s : RemoteState) (user password : List Char)
    (net : FetchResult) : HandlerResult RemoteState :=
  if user = [] ∨ password = [] then
    { state := { s with loginError := requiredMsg }, raised := false }
  else
    match fetchSubmissionsApp net with
    | .ok v =>
      { state :=
          { s with
            username := user
            submissions := v
            loggedIn := true
            loginError := [] }
        raised := false }
    | .error _ =>
      { state := { s with username := user }, raised := true }

/-- The JS spread `[...submissions, record]`: defined on arrays (and on
strings, which spread to their one-character strings); any other value
is not iterable and the spread throws. -/
def spreadAppend (v : JsValue) (x : JsValue) : Option (List JsValue) :=
  match v with
  | .arr xs => some (xs ++ [x])
  | .str cs => some (cs.map (fun c => JsValue.str [c]) ++ [x])
  | _ => none

/-- `handleFormSubmit` from `src/unnamed/part_000`: append first, then
fire `postSubmission` without awaiting it; the POST outcome can affect
nothing, and `postSubmission` never raises anyway. -/
def handleFormSubmit000 (s : RemoteState) (f : FormData)
    (net : FetchResult) : HandlerResult RemoteState :=
  match spreadAppend s.submissions (recordJson f) with
  | some next =>
    { state := { s with submissions := .arr next }
      raised := postRaises000 net }
  | none => { state := s, raised := true }

/-- `handleFormSubmit` from `src/src/App.jsx`:
`await postSubmission(...)` runs before the append, and
`postSubmission` there has no try/catch, so a rejected POST fetch
propagates and the append never happens. -/
def handleFormSubmitApp (s : RemoteState) (f : FormData)
    (net : FetchResult) : HandlerResult RemoteState :=
  if postRaisesApp net then { state := s, raised := true }
  else
    match spreadAppend s.submissions (recordJson f) with
    | some next =>
      { state := { s with submissions := .arr next }, raised := false }
    | none => { state := s, raised := true }

/-! ## Iterated submits within one session -/

/-- A sequence of form submits in the local variant. -/
def runSubmitsLocal (s : LocalState) (fs : List FormData) : LocalState :=
  fs.foldl localHandleFormSubmit s

/-- A sequence of form submits in the `part_000` remote variant, each
with its own POST outcome; an unhandled rejection does not end the
session, so the fold continues on the committed state. -/
def runSubmits000 (s : RemoteState) (fs : List (FormData × FetchResult)) : RemoteState :=
  fs.foldl (fun st p => (handleFormSubmit000 st p.1 p.2).state) s

/-- A sequence of form submits in the `App.jsx` remote variant. -/
def runSubmitsApp (s : RemoteState) (fs : List (FormData × FetchResult)) : RemoteState :=
  fs.foldl (fun st p => (handleFormSubmitApp st p.1 p.2).state) s

/-! ## Round trip of `parseJson` over `strVal` -/

theorem t_ne_lbrace : ('t' : Char) ≠ lbrace := by decide
theorem f_ne_lbrace : ('f' : Char) ≠ lbrace := by decide
theorem n_ne_lbrace : ('n' : Char) ≠ lbrace := by decide
theorem lbrace_ne_quote : lbrace ≠ ('"' : Char) := by decide
theorem lbrace_ne_lbrack : lbrace ≠ ('[' : Char) := by decide
theorem lbrace_ne_rbrack : lbrace ≠ (']' : Char) := by decide
theorem quote_ne_rbrace : ('"' : Char) ≠ rbrace := by decide
theorem rbrace_ne_comma : rbrace ≠ (',' : Char) := by decide

/-- The empty input is not a string body. -/
theorem parseStr_nil : parseStr [] = none := by rw [parseStr.eq_def]

/-- Unfolding equation for `parseStr` on a cons cell. -/
theorem parseStr_cons (c : Char) (r : List Char) :
    parseStr (c :: r) =
      if c = '"' then some ([], r)
      else if c = '\\' then
        match r with
        | [] => none
        | e :: r2 =>
          match unescape e with
          | none => none
          | some d => (parseStr r2).map (fun p => (d :: p.1, p.2))
      else (parseStr r).map (fun p => (c :: p.1, p.2)) := by
  rw [parseStr.eq_def]

/-- Reading an escaped string body back recovers it exactly. -/
theorem parseStr_escape (s : List Char) :
    ∀ rest, parseStr (escape s ++ '"' :: rest) = some (s, rest) := by
  induction s with
  | nil => intro rest; simp [escape, parseStr_cons]
  | cons c s ih =>
    intro rest
    by_cases hc : c = '"' ∨ c = '\\'
    · rcases hc with h | h <;> subst h <;>
        simp [escape, escapeChar, parseStr_cons, unescape, ih]
    · push_neg at hc
      simp [escape, escapeChar, hc.1, hc.2, parseStr_cons, ih]

/-- Every serialized value starts with a character other than the
array terminator. -/
theorem strVal_head (v : JsValue) :
    ∃ c t, strVal v = c :: t ∧ c ≠ (']' : Char) := by
  cases v with
  | str s => exact ⟨'"', escape s ++ ['"'], by simp [strVal], by decide⟩
  | bool b => cases b with
    | true => exact ⟨'t', ['r', 'u', 'e'], by simp [strVal], by decide⟩
    | false => exact ⟨'f', ['a', 'l', 's', 'e'], by simp [strVal], by decide⟩
  | null => exact ⟨'n', ['u', 'l', 'l'], by simp [strVal], by decide⟩
  | arr xs => exact ⟨'[', strArr xs ++ [']'], by simp [strVal], by decide⟩
  | obj fs => exact ⟨lbrace, strFields fs ++ [rbrace], by simp [strVal], lbrace_ne_rbrack⟩
/-- The reader inverts the writer: with fuel beyond the input length,
reading back a serialized value recovers it and leaves the rest of the
input untouched. -/
theorem parse_round : ∀ fuel : Nat,
    (∀ v rest, (strVal v).length < fuel →
      parseVal fuel (strVal v ++ rest) = some (v, rest)) ∧
    (∀ xs rest, (strArr xs).length + 1 < fuel →
      parseElems fuel (strArr xs ++ ']' :: rest) = some (xs, rest)) ∧
    (∀ fs rest, (strFields fs).length + 1 < fuel →
      parseFields fuel (strFields fs ++ rbrace :: rest) = some (fs, rest)) := by
  intro fuel
  induction fuel with
  | zero => refine ⟨?_, ?_, ?_⟩ <;> intro _ _ h <;> omega
  | succ f ih =>
    obtain ⟨ihV, ihE, ihF⟩ := ih
    refine ⟨?_, ?_, ?_⟩
    · -- one value
      intro v rest h
      cases v with
      | str s =>
        simp only [strVal, List.cons_append, List.append_assoc, List.singleton_append]
        simp [parseVal, parseStr_escape]
      | bool b =>
        cases b <;>
          simp [strVal, parseVal, t_ne_lbrace, f_ne_lbrace, n_ne_lbrace]
      | null =>
        simp [strVal, parseVal, t_ne_lbrace, f_ne_lbrace, n_ne_lbrace]
      | arr xs =>
        have hb : (strArr xs).length + 1 < f := by
          simp [strVal, List.length_append] at h; omega
        simp only [strVal, List.cons_append, List.append_assoc, List.singleton_append]
        simp [parseVal, ihE xs rest hb]
      | obj fs =>
        have hb : (strFields fs).length + 1 < f := by
          simp [strVal, List.length_append] at h; omega
        simp only [strVal, List.cons_append, List.append_assoc, List.singleton_append]
        simp [parseVal, lbrace_ne_quote, lbrace_ne_lbrack, ihF fs rest hb]
    · -- array elements
      intro xs rest h
      match xs with
      | [] => simp [strArr, parseElems]
      | [x] =>
        obtain ⟨c, t, hv, hc⟩ := strVal_head x
        have hb : (strVal x).length < f := by simp [strArr] at h; omega
        have hin : strArr [x] ++ ']' :: rest = c :: (t ++ ']' :: rest) := by
          simp [strArr, hv]
        rw [hin]
        simp only [parseElems, hc, if_false, ite_false]
        rw [show c :: (t ++ ']' :: rest) = strVal x ++ ']' :: rest by
          rw [hv]; simp]
        rw [ihV x (']' :: rest) hb]
        simp
      | x :: y :: xs =>
        obtain ⟨c, t, hv, hc⟩ := strVal_head x
        have hlx : (strVal x).length = t.length + 1 := by rw [hv]; simp
        have hb1 : (strVal x).length < f := by
          simp [strArr, List.length_append] at h; omega
        have hb2 : (strArr (y :: xs)).length + 1 < f := by
          simp [strArr, List.length_append] at h; omega
        have hin : strArr (x :: y :: xs) ++ ']' :: rest
            = c :: (t ++ ',' :: (strArr (y :: xs) ++ ']' :: rest)) := by
          simp [strArr, hv]
        rw [hin]
        simp only [parseElems, hc, if_false, ite_false]
        rw [show c :: (t ++ ',' :: (strArr (y :: xs) ++ ']' :: rest))
            = strVal x ++ ',' :: (strArr (y :: xs) ++ ']' :: rest) by
          rw [hv]; simp]
        rw [ihV x (',' :: (strArr (y :: xs) ++ ']' :: rest)) hb1]
        simp [ihE (y :: xs) rest hb2]
    · -- object members
      intro fs rest h
      match fs with
      | [] => simp [strFields, parseFields]
      | [(k, v)] =>
        have hb : (strVal v).length < f := by
          simp [strFields, List.length_append] at h; omega
        have hin : strFields [(k, v)] ++ rbrace :: rest
            = '"' :: (escape k ++ '"' :: ':' :: (strVal v ++ rbrace :: rest)) := by
          simp [strFields]
        rw [hin]
        simp only [parseFields, quote_ne_rbrace, if_false, ite_false, if_pos rfl]
        rw [parseStr_escape]
        simp [ihV v (rbrace :: rest) hb, rbrace_ne_comma]
      | (k, v) :: g :: fs =>
        have hb1 : (strVal v).length < f := by
          simp [strFields, List.length_append] at h; omega
        have hb2 : (strFields (g :: fs)).length + 1 < f := by
          simp [strFields, List.length_append] at h; omega
        have hin : strFields ((k, v) :: g :: fs) ++ rbrace :: rest
            = '"' :: (escape k ++ '"' :: ':' ::
                (strVal v ++ ',' :: (strFields (g :: fs) ++ rbrace :: rest))) := by
          simp [strFields]
        rw [hin]
        simp only [parseFields, quote_ne_rbrace, if_false, ite_false, if_pos rfl]
        rw [parseStr_escape]
        simp [ihV v (',' :: (strFields (g :: fs) ++ rbrace :: rest)) hb1,
          ihF (g :: fs) rest hb2]

/-- `JSON.parse` inverts `JSON.stringify` on every `JsValue`. -/
theorem parseJson_strVal (v : JsValue) : parseJson (strVal v) = some v := by
  unfold parseJson
  have hr := (parse_round ((strVal v).length + 1)).1 v [] (by omega)
  rw [List.append_nil] at hr
  rw [hr]
theorem b64inv_b64char : ∀ n, n < 64 → b64inv (b64char n) = n := by decide

theorem b64char_ne_pad (n : Nat) : b64char n ≠ '=' := by
  by_cases h : n < 64
  · exact (by decide : ∀ m, m < 64 → b64char m ≠ '=') n h
  · unfold b64char
    rw [List.getD_eq_default]
    · decide
    · simp [b64chars]; omega

theorem b64decode_encode : ∀ l : List Nat, (∀ x ∈ l, x < 256) →
    b64decode (b64encode l) = some l := by
  intro l
  induction l using b64encode.induct with
  | case1 => intro _; simp [b64encode, b64decode]
  | case2 a =>
    intro hb
    have ha : a < 256 := hb a (by simp)
    simp [b64encode, b64decode, b64inv_b64char (a / 4) (by omega),
      b64inv_b64char (a % 4 * 16) (by omega)]
    omega
  | case3 a b =>
    intro hb
    have ha : a < 256 := hb a (by simp)
    have hbb : b < 256 := hb b (by simp)
    simp [b64encode, b64decode, b64char_ne_pad,
      b64inv_b64char (a / 4) (by omega),
      b64inv_b64char (a % 4 * 16 + b / 16) (by omega),
      b64inv_b64char (b % 16 * 4) (by omega)]
    constructor <;> omega
  | case4 a b c rest ih =>
    intro hb
    have ha : a < 256 := hb a (by simp)
    have hbb : b < 256 := hb b (by simp)
    have hc : c < 256 := hb c (by simp)
    have hrest : ∀ x ∈ rest, x < 256 := fun x hx => hb x (by simp [hx])
    simp [b64encode, b64decode, b64char_ne_pad, ih hrest,
      b64inv_b64char (a / 4) (by omega),
      b64inv_b64char (a % 4 * 16 + b / 16) (by omega),
      b64inv_b64char (b % 16 * 4 + c / 64) (by omega),
      b64inv_b64char (c % 64) (by omega)]
    refine ⟨by omega, by omega, by omega⟩

/-- Base64 encoding is injective on byte sequences. -/
theorem b64encode_inj {l1 l2 : List Nat} (h1 : ∀ x ∈ l1, x < 256)
    (h2 : ∀ x ∈ l2, x < 256) (h : b64encode l1 = b64encode l2) : l1 = l2 := by
  have e1 := b64decode_encode l1 h1
  have e2 := b64decode_encode l2 h2
  rw [h, e2] at e1
  exact (Option.some.injEq _ _ ▸ e1).symm

/-- `Char.toNat` is injective. -/
theorem char_toNat_inj {c1 c2 : Char} (h : c1.toNat = c2.toNat) : c1 = c2 :=
  Char.ext (UInt32.ext h)

/-- `btoa` is injective where it is defined. -/
theorem btoa_inj {s1 s2 e : List Char} (h1 : btoa s1 = some e)
    (h2 : btoa s2 = some e) : s1 = s2 := by
  unfold btoa at h1 h2
  split at h1
  case isFalse => exact absurd h1 (by simp)
  case isTrue hb1 =>
    split at h2
    case isFalse => exact absurd h2 (by simp)
    case isTrue hb2 =>
      have he1 : b64encode (s1.map Char.toNat) = e := by
        simpa using h1
      have he2 : b64encode (s2.map Char.toNat) = e := by
        simpa using h2
      have hm : s1.map Char.toNat = s2.map Char.toNat := by
        refine b64encode_inj ?_ ?_ (he1.trans he2.symm)
        · intro x hx
          obtain ⟨c, hc, rfl⟩ := List.mem_map.mp hx
          have := hb1 c hc
          omega
        · intro x hx
          obtain ⟨c, hc, rfl⟩ := List.mem_map.mp hx
          have := hb2 c hc
          omega
      exact List.map_injective_iff.mpr (fun a b => char_toNat_inj) hm

/-- Splitting on a separator absent from both left parts is
unambiguous. -/
theorem nul_split : ∀ (u1 p1 u2 p2 : List Char), nulChar ∉ u1 → nulChar ∉ u2 →
    u1 ++ nulChar :: p1 = u2 ++ nulChar :: p2 → u1 = u2 ∧ p1 = p2 := by
  intro u1
  induction u1 with
  | nil =>
    intro p1 u2 p2 _ hn2 h
    cases u2 with
    | nil => simpa using h
    | cons c u2 =>
      simp only [List.nil_append, List.cons_append, List.cons.injEq] at h
      obtain ⟨hc, _⟩ := h
      exact absurd (show nulChar ∈ c :: u2 by
        rw [← hc]; exact List.mem_cons_self _ _) hn2
  | cons c u1 ih =>
    intro p1 u2 p2 hn1 hn2 h
    cases u2 with
    | nil =>
      simp only [List.nil_append, List.cons_append, List.cons.injEq] at h
      obtain ⟨hc, _⟩ := h
      exact absurd (show nulChar ∈ c :: u1 by
        rw [hc]; exact List.mem_cons_self _ _) hn1
    | cons d u2 =>
      simp only [List.cons_append, List.cons.injEq] at h
      obtain ⟨rfl, htl⟩ := h
      have := ih p1 u2 p2 (fun hm => hn1 (List.mem_cons_of_mem _ hm))
        (fun hm => hn2 (List.mem_cons_of_mem _ hm)) htl
      exact ⟨by rw [this.1], this.2⟩

/-! ## Local Adapter facts -/

/-- `Array.isArray` on a JSON value. -/
def isArray : JsValue → Bool
  | .arr _ => true
  | _ => false

/-- The empty raw value is not JSON. -/
theorem parseJson_nil : parseJson [] = none := rfl

/-- A serialized array is never the empty string. -/
theorem strVal_arr_ne_nil (S : List JsValue) : strVal (JsValue.arr S) ≠ [] := by
  simp [strVal]

/-- When both credential halves are byte-ranged, the storage key is
derived without throwing, and is the tag followed by the base64 of
username, NUL, password. -/
theorem getKey_bytes (u p : List Char) (hu : ∀ c ∈ u, c.toNat ≤ 255)
    (hp : ∀ c ∈ p, c.toNat ≤ 255) :
    getSubmissionsStorageKey u p
      = some ("submissions:".data ++ b64encode ((u ++ nulChar :: p).map Char.toNat)) := by
  simp only [getSubmissionsStorageKey, btoa]
  rw [if_pos]
  · simp
  · rintro x hx
    rcases List.mem_append.mp hx with h | h
    · exact hu x h
    · rcases List.mem_cons.mp h with rfl | h
      · decide
      · exact hp x h

/-- Distinct NUL-free credential pairs derive distinct keys. -/
theorem getKey_inj (u1 p1 u2 p2 k : List Char) (h1 : nulChar ∉ u1) (h2 : nulChar ∉ u2)
    (hk1 : getSubmissionsStorageKey u1 p1 = some k)
    (hk2 : getSubmissionsStorageKey u2 p2 = some k) : u1 = u2 ∧ p1 = p2 := by
  unfold getSubmissionsStorageKey at hk1 hk2
  obtain ⟨e1, he1, hke1⟩ := Option.map_eq_some'.mp hk1
  obtain ⟨e2, he2, hke2⟩ := Option.map_eq_some'.mp hk2
  have he : e1 = e2 := by
    have h := hke1.trans hke2.symm
    exact List.append_cancel_left h
  rw [he] at he1
  have hraw := btoa_inj he1 he2
  exact nul_split u1 p1 u2 p2 h1 h2 hraw

/-- C3, corrected.  For every credential pair all of whose characters
fit in a byte (so that `btoa` does not throw) and every record sequence
`S`, reading with `loadSubmissions` immediately after `saveSubmissions`
of `S` under the same pair returns exactly `S`.  Without the byte
restriction the round trip fails: see the counterexample. -/
theorem spec_c3 (u p : List Char) (S : List JsValue) (st : Storage)
    (hu : ∀ c ∈ u, c.toNat ≤ 255) (hp : ∀ c ∈ p, c.toNat ≤ 255) :
    loadSubmissions u p (saveSubmissions u p S st) = S := by
  have hkey := getKey_bytes u p hu hp
  unfold loadSubmissions saveSubmissions
  rw [hkey]
  simp [setItem, strVal_arr_ne_nil, parseJson_strVal]

/-- C4, corrected.  For NUL-free credential pairs whose keys are
derived, distinct pairs get distinct keys, and a write under one pair
is invisible to a read under the other.  Without the NUL-free
restriction two distinct pairs can share a key: see the
counterexample. -/
theorem spec_c4 (u1 p1 u2 p2 k1 k2 : List Char) (S : List JsValue) (st : Storage)
    (h1 : nulChar ∉ u1) (h2 : nulChar ∉ u2)
    (hne : ¬(u1 = u2 ∧ p1 = p2))
    (hk1 : getSubmissionsStorageKey u1 p1 = some k1)
    (hk2 : getSubmissionsStorageKey u2 p2 = some k2) :
    k1 ≠ k2 ∧
    loadSubmissions u2 p2 (saveSubmissions u1 p1 S st) = loadSubmissions u2 p2 st := by
  have hkne : k1 ≠ k2 := by
    intro hkk
    exact hne (getKey_inj u1 p1 u2 p2 k2 h1 h2 (hkk ▸ hk1) hk2)
  refine ⟨hkne, ?_⟩
  unfold loadSubmissions saveSubmissions
  rw [hk1, hk2]
  simp [setItem, hkne.symm]

/-- C8, confirmed.  `loadSubmissions` returns the parsed stored value
only when that value is an array: a missing raw value, an unparsable
raw value, or a parsable non-array all degrade to the empty list (as
does a throwing key derivation), and a stored array is returned
exactly.  The function is total, modelling that it never throws. -/
theorem spec_c8 (u p : List Char) (st : Storage) (k raw : List Char)
    (v : JsValue) (xs : List JsValue) :
    (getSubmissionsStorageKey u p = none → loadSubmissions u p st = []) ∧
    (getSubmissionsStorageKey u p = some k → st k = none →
      loadSubmissions u p st = []) ∧
    (getSubmissionsStorageKey u p = some k → st k = some raw →
      parseJson raw = none → loadSubmissions u p st = []) ∧
    (getSubmissionsStorageKey u p = some k → st k = some raw →
      parseJson raw = some v → isArray v = false → loadSubmissions u p st = []) ∧
    (getSubmissionsStorageKey u p = some k → st k = some raw →
      parseJson raw = some (JsValue.arr xs) → loadSubmissions u p st = xs) := by
  refine ⟨?_, ?_, ?_, ?_, ?_⟩
  · intro hk; unfold loadSubmissions; rw [hk]
  · intro hk hst; unfold loadSubmissions; rw [hk]; dsimp only; rw [hst]
  · intro hk hst hp
    unfold loadSubmissions; rw [hk]; dsimp only; rw [hst]
    by_cases hraw : raw = []
    · simp [hraw]
    · simp [hraw, hp]
  · intro hk hst hp hv
    unfold loadSubmissions; rw [hk]; dsimp only; rw [hst]
    by_cases hraw : raw = []
    · simp [hraw]
    · cases v with
      | arr ys => simp [isArray] at hv
      | str s => simp [hraw, hp]
      | bool b => simp [hraw, hp]
      | null => simp [hraw, hp]
      | obj fs => simp [hraw, hp]
  · intro hk hst hp
    unfold loadSubmissions; rw [hk]; dsimp only; rw [hst]
    have hraw : raw ≠ [] := by
      intro h; rw [h, parseJson_nil] at hp; exact Option.noConfusion hp
    simp [hraw, hp]

/-! ## Concrete data for counterexamples and witnesses -/

/-- A concrete submitted record. -/
def bobRecord : FormData :=
  ⟨"Bob".data, "b@x.com".data, "555".data, "1 Rd".data, "hi".data⟩

/-- A character whose UTF-16 code unit exceeds 255, on which `btoa`
throws. -/
def capAChar : Char := Char.ofNat 256

/-- C3 counterexample.  With the username `"Ā"` (code unit 256) the
key derivation throws inside `btoa`, `saveSubmissions` swallows the
throw storing nothing, and the read immediately after the write of a
one-record sequence returns the empty sequence instead, refuting the
claim for arbitrary credential pairs. -/
theorem cex_c3 :
    loadSubmissions [capAChar] "x".data
      (saveSubmissions [capAChar] "x".data [recordJson bobRecord] emptyStorage) = []
    ∧ [recordJson bobRecord] ≠ ([] : List JsValue) := by
  constructor
  · rfl
  · simp

/-- C4 counterexample.  The pairs `("a\0b", "c")` and `("a", "b\0c")`
are distinct yet derive the same storage key, because the NUL used as
separator can also occur inside a credential half. -/
theorem cex_c4 :
    getSubmissionsStorageKey ("a".data ++ nulChar :: "b".data) "c".data
      = getSubmissionsStorageKey "a".data ("b".data ++ nulChar :: "c".data)
    ∧ ¬(("a".data ++ nulChar :: "b".data) = "a".data
        ∧ "c".data = "b".data ++ nulChar :: "c".data) := by
  constructor
  · rfl
  · decide

/-- C3 witness: the round trip at `("alice", "secret")` with one
concrete record. -/
theorem wit_c3 :
    loadSubmissions "alice".data "secret".data
      (saveSubmissions "alice".data "secret".data [recordJson bobRecord] emptyStorage)
      = [recordJson bobRecord] :=
  spec_c3 "alice".data "secret".data [recordJson bobRecord] emptyStorage
    (by decide) (by decide)

/-- C4 witness: `("a","b")` and `("a","c")` derive different keys and a
write under the first is invisible to a read under the second. -/
theorem wit_c4 :
    "submissions:YQBi".data ≠ "submissions:YQBj".data
    ∧ loadSubmissions "a".data "c".data
        (saveSubmissions "a".data "b".data [recordJson bobRecord] emptyStorage)
      = loadSubmissions "a".data "c".data emptyStorage :=
  spec_c4 "a".data "b".data "a".data "c".data
    "submissions:YQBi".data "submissions:YQBj".data
    [recordJson bobRecord] emptyStorage
    (by decide) (by decide) (by decide) (by decide) (by decide)

/-- A concrete stored raw value: the serialized one-string array. -/
def c8Raw : List Char := strVal (JsValue.arr [JsValue.str ['x']])

/-- A concrete storage holding `c8Raw` under the key of `("a","b")`. -/
def c8Store : Storage := setItem emptyStorage "submissions:YQBi".data c8Raw

/-- C8 witness: a stored array is returned exactly. -/
theorem wit_c8 :
    loadSubmissions "a".data "b".data c8Store = [JsValue.str ['x']] :=
  (spec_c8 "a".data "b".data c8Store "submissions:YQBi".data c8Raw
    JsValue.null [JsValue.str ['x']]).2.2.2.2
    (by decide) rfl (parseJson_strVal (JsValue.arr [JsValue.str ['x']]))

/-! ## Session states used by witnesses and counterexamples -/

/-- The initial (anonymous) state of the local variant, over an empty
storage. -/
def initLocal : LocalState :=
  ⟨false, [], [], "form".data, [], [], emptyStorage⟩

/-- The initial (anonymous) state of the remote variants. -/
def initRemote : RemoteState := ⟨false, [], .arr [], []⟩

/-- An authenticated local-variant state with an empty list. -/
def authLocal : LocalState :=
  ⟨true, [], [], "form".data, "a".data, "b".data, emptyStorage⟩

/-- An authenticated remote-variant state with an empty list. -/
def authRemote : RemoteState := ⟨true, [], .arr [], "u".data⟩

/-- C5, confirmed.  For every non-empty credential pair, login
authenticates, installs exactly the sequence the active Store Adapter
read returned, and clears the prior login error — unconditionally in
the local and try/catch remote variants, and in the `App.jsx` variant
whenever its `fetchSubmissions` returns a value rather than
propagating. -/
theorem spec_c5 (u p : List Char) (sL : LocalState) (sr sa : RemoteState)
    (net1 net2 : FetchResult) (v : JsValue)
    (hu : u ≠ []) (hp : p ≠ [])
    (_hL : sL.loggedIn = false) (_hr : sr.loggedIn = false) (_ha : sa.loggedIn = false)
    (hfetch : fetchSubmissionsApp net2 = Except.ok v) :
    ((localHandleLogin sL u p).loggedIn = true
      ∧ (localHandleLogin sL u p).submissions = loadSubmissions u p sL.storage
      ∧ (localHandleLogin sL u p).loginError = [])
    ∧ ((handleLogin000 sr u p net1).loggedIn = true
      ∧ (handleLogin000 sr u p net1).submissions = fetchSubmissions000 net1
      ∧ (handleLogin000 sr u p net1).loginError = [])
    ∧ ((handleLoginApp sa u p net2).raised = false
      ∧ (handleLoginApp sa u p net2).state.loggedIn = true
      ∧ (handleLoginApp sa u p net2).state.submissions = v
      ∧ (handleLoginApp sa u p net2).state.loginError = []) := by
  simp [localHandleLogin, handleLogin000, handleLoginApp, hu, hp, hfetch]

/-- C5 witness at `("a","b")` over the initial states. -/
theorem wit_c5 :
    ((localHandleLogin initLocal "a".data "b".data).loggedIn = true
      ∧ (localHandleLogin initLocal "a".data "b".data).submissions
          = loadSubmissions "a".data "b".data initLocal.storage
      ∧ (localHandleLogin initLocal "a".data "b".data).loginError = [])
    ∧ ((handleLogin000 initRemote "a".data "b".data FetchResult.httpError).loggedIn = true
      ∧ (handleLogin000 initRemote "a".data "b".data FetchResult.httpError).submissions
          = fetchSubmissions000 FetchResult.httpError
      ∧ (handleLogin000 initRemote "a".data "b".data FetchResult.httpError).loginError = [])
    ∧ ((handleLoginApp initRemote "a".data "b".data (FetchResult.ok "[]".data)).raised = false
      ∧ (handleLoginApp initRemote "a".data "b".data (FetchResult.ok "[]".data)).state.loggedIn = true
      ∧ (handleLoginApp initRemote "a".data "b".data (FetchResult.ok "[]".data)).state.submissions
          = JsValue.arr []
      ∧ (handleLoginApp initRemote "a".data "b".data (FetchResult.ok "[]".data)).state.loginError = []) :=
  spec_c5 "a".data "b".data initLocal initRemote initRemote
    FetchResult.httpError (FetchResult.ok "[]".data) (JsValue.arr [])
    (by decide) (by decide) rfl rfl rfl rfl

/-- C6, confirmed.  When the username or the password is empty, every
variant sets the validation message and changes nothing else: the
result is the same state with only `loginError` replaced, so the
session stays anonymous with credentials and list untouched (and the
`App.jsx` handler does not raise). -/
theorem spec_c6 (u p : List Char) (sL : LocalState) (sr sa : RemoteState)
    (net1 net2 : FetchResult) (h : u = [] ∨ p = []) :
    localHandleLogin sL u p = { sL with loginError := requiredMsg }
    ∧ (localHandleLogin sL u p).loggedIn = sL.loggedIn
    ∧ (localHandleLogin sL u p).submissions = sL.submissions
    ∧ (localHandleLogin sL u p).authUsername = sL.authUsername
    ∧ (localHandleLogin sL u p).authPassword = sL.authPassword
    ∧ handleLogin000 sr u p net1 = { sr with loginError := requiredMsg }
    ∧ handleLoginApp sa u p net2
        = { state := { sa with loginError := requiredMsg }, raised := false } := by
  unfold localHandleLogin handleLogin000 handleLoginApp
  rw [if_pos h, if_pos h, if_pos h]
  simp

/-- C6 witness with an empty username. -/
theorem wit_c6 :
    localHandleLogin initLocal [] "b".data = { initLocal with loginError := requiredMsg }
    ∧ (localHandleLogin initLocal [] "b".data).loggedIn = initLocal.loggedIn
    ∧ (localHandleLogin initLocal [] "b".data).submissions = initLocal.submissions
    ∧ (localHandleLogin initLocal [] "b".data).authUsername = initLocal.authUsername
    ∧ (localHandleLogin initLocal [] "b".data).authPassword = initLocal.authPassword
    ∧ handleLogin000 initRemote [] "b".data FetchResult.httpError
        = { initRemote with loginError := requiredMsg }
    ∧ handleLoginApp initRemote [] "b".data FetchResult.netThrow
        = { state := { initRemote with loginError := requiredMsg }, raised := false } :=
  spec_c6 [] "b".data initLocal initRemote initRemote
    FetchResult.httpError FetchResult.netThrow (Or.inl rfl)

/-- C9, confirmed.  On an HTTP-success response, neither remote
variant checks the shape of the parsed body: whatever JSON value it
parses to — array or not — becomes the submission list after login
verbatim. -/
theorem spec_c9 (u p : List Char) (sr sa : RemoteState) (body : List Char) (v : JsValue)
    (hu : u ≠ []) (hp : p ≠ []) (hbody : parseJson body = some v) :
    fetchSubmissions000 (FetchResult.ok body) = v
    ∧ fetchSubmissionsApp (FetchResult.ok body) = Except.ok v
    ∧ (handleLogin000 sr u p (FetchResult.ok body)).submissions = v
    ∧ (handleLoginApp sa u p (FetchResult.ok body)).state.submissions = v := by
  simp [fetchSubmissions000, fetchSubmissionsApp, handleLogin000, handleLoginApp,
    hbody, hu, hp]

/-- C9 witness with a non-array body, the empty object. -/
theorem wit_c9 :
    fetchSubmissions000 (FetchResult.ok (strVal (JsValue.obj []))) = JsValue.obj []
    ∧ fetchSubmissionsApp (FetchResult.ok (strVal (JsValue.obj []))) = Except.ok (JsValue.obj [])
    ∧ (handleLogin000 initRemote "a".data "b".data
        (FetchResult.ok (strVal (JsValue.obj [])))).submissions = JsValue.obj []
    ∧ (handleLoginApp initRemote "a".data "b".data
        (FetchResult.ok (strVal (JsValue.obj [])))).state.submissions = JsValue.obj [] :=
  spec_c9 "a".data "b".data initRemote initRemote (strVal (JsValue.obj [])) (JsValue.obj [])
    (by decide) (by decide) (parseJson_strVal (JsValue.obj []))

/-- C1 counterexample.  In the `App.jsx` variant a rejected fetch is
not caught: `fetchSubmissions` propagates the error instead of
returning an empty sequence, and login raises without
authenticating. -/
theorem cex_c1 :
    fetchSubmissionsApp FetchResult.netThrow = Except.error ()
    ∧ (handleLoginApp initRemote "a".data "b".data FetchResult.netThrow).raised = true
    ∧ (handleLoginApp initRemote "a".data "b".data FetchResult.netThrow).state.loggedIn
        = false :=
  ⟨rfl, rfl, rfl⟩

/-- C1, corrected.  The try/catch variant returns the empty sequence
on both a non-success status and a rejected fetch, and its login
succeeds in both cases; the `App.jsx` variant returns the empty
sequence (and login succeeds) only on a non-success HTTP status, while
a rejected fetch propagates and login raises, leaving the session
unauthenticated. -/
theorem spec_c1 (u p : List Char) (s0 sA : RemoteState)
    (hu : u ≠ []) (hp : p ≠ []) :
    fetchSubmissions000 FetchResult.httpError = JsValue.arr []
    ∧ fetchSubmissions000 FetchResult.netThrow = JsValue.arr []
    ∧ (handleLogin000 s0 u p FetchResult.httpError).loggedIn = true
    ∧ (handleLogin000 s0 u p FetchResult.netThrow).loggedIn = true
    ∧ fetchSubmissionsApp FetchResult.httpError = Except.ok (JsValue.arr [])
    ∧ (handleLoginApp sA u p FetchResult.httpError).raised = false
    ∧ (handleLoginApp sA u p FetchResult.httpError).state.loggedIn = true
    ∧ fetchSubmissionsApp FetchResult.netThrow = Except.error ()
    ∧ (handleLoginApp sA u p FetchResult.netThrow).raised = true
    ∧ (handleLoginApp sA u p FetchResult.netThrow).state.loggedIn = sA.loggedIn := by
  simp [fetchSubmissions000, fetchSubmissionsApp, handleLogin000, handleLoginApp, hu, hp]

/-- C1 witness at `("a","b")` over the initial remote state. -/
theorem wit_c1 :
    fetchSubmissions000 FetchResult.httpError = JsValue.arr []
    ∧ fetchSubmissions000 FetchResult.netThrow = JsValue.arr []
    ∧ (handleLogin000 initRemote "a".data "b".data FetchResult.httpError).loggedIn = true
    ∧ (handleLogin000 initRemote "a".data "b".data FetchResult.netThrow).loggedIn = true
    ∧ fetchSubmissionsApp FetchResult.httpError = Except.ok (JsValue.arr [])
    ∧ (handleLoginApp initRemote "a".data "b".data FetchResult.httpError).raised = false
    ∧ (handleLoginApp initRemote "a".data "b".data FetchResult.httpError).state.loggedIn = true
    ∧ fetchSubmissionsApp FetchResult.netThrow = Except.error ()
    ∧ (handleLoginApp initRemote "a".data "b".data FetchResult.netThrow).raised = true
    ∧ (handleLoginApp initRemote "a".data "b".data FetchResult.netThrow).state.loggedIn
        = initRemote.loggedIn :=
  spec_c1 "a".data "b".data initRemote initRemote (by decide) (by decide)

/-- C2 counterexample.  In the `App.jsx` variant the POST is awaited
before the append with no try/catch: when the POST fetch rejects, the
record is not appended at all — so the in-memory list after a submit
differs between a failed and a successful remote write. -/
theorem cex_c2 :
    (handleFormSubmitApp authRemote bobRecord FetchResult.netThrow).state.submissions
      = JsValue.arr []
    ∧ (handleFormSubmitApp authRemote bobRecord FetchResult.netThrow).raised = true
    ∧ (handleFormSubmitApp authRemote bobRecord FetchResult.httpError).state.submissions
      = JsValue.arr [recordJson bobRecord]
    ∧ JsValue.arr ([] : List JsValue) ≠ JsValue.arr [recordJson bobRecord] := by
  refine ⟨rfl, rfl, rfl, ?_⟩
  simp

/-- C2, corrected.  In the try/catch variant every submit appends and
nothing is raised irrespective of the POST outcome; in the `App.jsx`
variant the record is still appended when the POST merely returns a
non-success status, but a rejected POST fetch propagates before the
append, leaving the list unchanged. -/
theorem spec_c2 (s : RemoteState) (f : FormData) (net : FetchResult) (xs : List JsValue)
    (hs : s.submissions = JsValue.arr xs) :
    ((handleFormSubmit000 s f net).state.submissions = JsValue.arr (xs ++ [recordJson f])
      ∧ (handleFormSubmit000 s f net).raised = false)
    ∧ (net ≠ FetchResult.netThrow →
        (handleFormSubmitApp s f net).state.submissions = JsValue.arr (xs ++ [recordJson f])
        ∧ (handleFormSubmitApp s f net).raised = false)
    ∧ (net = FetchResult.netThrow →
        (handleFormSubmitApp s f net).state = s
        ∧ (handleFormSubmitApp s f net).raised = true) := by
  refine ⟨?_, ?_, ?_⟩
  · simp [handleFormSubmit000, spreadAppend, hs, postRaises000]
  · intro hnet
    have hpr : postRaisesApp net = false := by
      cases net <;> simp [postRaisesApp] at hnet ⊢
    simp [handleFormSubmitApp, spreadAppend, hs, hpr]
  · intro hnet
    subst hnet
    simp [handleFormSubmitApp, postRaisesApp]

/-- C2 witness: the try/catch variant appends even under a rejected
POST, and the `App.jsx` variant appends under a non-success status. -/
theorem wit_c2 :
    (handleFormSubmit000 authRemote bobRecord FetchResult.netThrow).state.submissions
      = JsValue.arr ([] ++ [recordJson bobRecord])
    ∧ (handleFormSubmitApp authRemote bobRecord FetchResult.httpError).state.submissions
      = JsValue.arr ([] ++ [recordJson bobRecord]) :=
  ⟨((spec_c2 authRemote bobRecord FetchResult.netThrow [] rfl).1).1,
   ((spec_c2 authRemote bobRecord FetchResult.httpError [] rfl).2.1 (by decide)).1⟩

/-! ## Iterated appends -/

/-- Folding local form submits appends the records in call order. -/
theorem runLocal_submissions (fs : List FormData) : ∀ s : LocalState,
    (runSubmitsLocal s fs).submissions = s.submissions ++ fs.map recordJson := by
  induction fs with
  | nil => intro s; simp [runSubmitsLocal]
  | cons f fs ih =>
    intro s
    have step := ih (localHandleFormSubmit s f)
    simp only [runSubmitsLocal, List.foldl_cons] at step ⊢
    rw [step]
    simp [localHandleFormSubmit]

/-- Folding try/catch-variant submits appends the records in call
order whatever the POST outcomes. -/
theorem run000_submissions (fsr : List (FormData × FetchResult)) :
    ∀ (s : RemoteState) (xs : List JsValue), s.submissions = JsValue.arr xs →
    (runSubmits000 s fsr).submissions
      = JsValue.arr (xs ++ fsr.map (fun q => recordJson q.1)) := by
  induction fsr with
  | nil => intro s xs hs; simpa [runSubmits000] using hs
  | cons q fsr ih =>
    intro s xs hs
    have hstep : (handleFormSubmit000 s q.1 q.2).state.submissions
        = JsValue.arr (xs ++ [recordJson q.1]) := by
      simp [handleFormSubmit000, spreadAppend, hs]
    have := ih ((handleFormSubmit000 s q.1 q.2).state) (xs ++ [recordJson q.1]) hstep
    simpa [runSubmits000, List.foldl_cons, List.append_assoc] using this

/-- Folding `App.jsx`-variant submits appends the records in call
order provided no POST fetch rejects. -/
theorem runApp_submissions (fsa : List (FormData × FetchResult)) :
    ∀ (s : RemoteState) (xs : List JsValue), s.submissions = JsValue.arr xs →
    (∀ q ∈ fsa, q.2 ≠ FetchResult.netThrow) →
    (runSubmitsApp s fsa).submissions
      = JsValue.arr (xs ++ fsa.map (fun q => recordJson q.1)) := by
  induction fsa with
  | nil => intro s xs hs _; simpa [runSubmitsApp] using hs
  | cons q fsa ih =>
    intro s xs hs hnet
    have hq : q.2 ≠ FetchResult.netThrow := hnet q (List.mem_cons_self _ _)
    have hpr : postRaisesApp q.2 = false := by
      cases h : q.2 <;> simp [postRaisesApp] <;> simp [h] at hq
    have hstep : (handleFormSubmitApp s q.1 q.2).state.submissions
        = JsValue.arr (xs ++ [recordJson q.1]) := by
      simp [handleFormSubmitApp, spreadAppend, hs, hpr]
    have := ih ((handleFormSubmitApp s q.1 q.2).state) (xs ++ [recordJson q.1]) hstep
      (fun r hr => hnet r (List.mem_cons_of_mem _ hr))
    simpa [runSubmitsApp, List.foldl_cons, List.append_assoc] using this

/-- C7 counterexample.  In the `App.jsx` variant one submit whose POST
fetch rejects leaves the list unchanged: the session's list is not the
initial list followed by the submitted records. -/
theorem cex_c7 :
    (runSubmitsApp authRemote [(bobRecord, FetchResult.netThrow)]).submissions
      = JsValue.arr []
    ∧ JsValue.arr ([] : List JsValue) ≠ JsValue.arr ([] ++ [recordJson bobRecord]) := by
  refine ⟨rfl, ?_⟩
  simp

/-- C7, corrected.  Within one session starting from list `L0`, the
local and try/catch variants end with `L0` followed by the submitted
records in call order (no reordering, loss, update or deletion); the
`App.jsx` variant does so provided no submit's POST fetch rejects —
with a rejected POST it drops that record. -/
theorem spec_c7 (L0 : List JsValue) (fs : List FormData)
    (fsr fsa : List (FormData × FetchResult))
    (sL : LocalState) (sr sa : RemoteState)
    (hL : sL.submissions = L0) (hr : sr.submissions = JsValue.arr L0)
    (ha : sa.submissions = JsValue.arr L0)
    (hnet : ∀ q ∈ fsa, q.2 ≠ FetchResult.netThrow) :
    (runSubmitsLocal sL fs).submissions = L0 ++ fs.map recordJson
    ∧ (runSubmits000 sr fsr).submissions
        = JsValue.arr (L0 ++ fsr.map (fun q => recordJson q.1))
    ∧ (runSubmitsApp sa fsa).submissions
        = JsValue.arr (L0 ++ fsa.map (fun q => recordJson q.1)) :=
  ⟨hL ▸ runLocal_submissions fs sL,
   run000_submissions fsr sr L0 hr,
   runApp_submissions fsa sa L0 ha hnet⟩

/-- C7 witness with one concrete submit per variant. -/
theorem wit_c7 :
    (runSubmitsLocal authLocal [bobRecord]).submissions = [] ++ [bobRecord].map recordJson
    ∧ (runSubmits000 authRemote [(bobRecord, FetchResult.netThrow)]).submissions
        = JsValue.arr ([] ++ [(bobRecord, FetchResult.netThrow)].map (fun q => recordJson q.1))
    ∧ (runSubmitsApp authRemote [(bobRecord, FetchResult.httpError)]).submissions
        = JsValue.arr ([] ++ [(bobRecord, FetchResult.httpError)].map (fun q => recordJson q.1)) :=
  spec_c7 [] [bobRecord] [(bobRecord, FetchResult.netThrow)]
    [(bobRecord, FetchResult.httpError)] authLocal authRemote authRemote
    rfl rfl rfl (by decide)

/-- C10, confirmed.  The object appended to the in-memory list is
exactly the submitted record — an object with only the members
`name`, `email`, `phone`, `address`, `message`, never `username` — in
every variant (for `App.jsx` when the POST does not reject, since
otherwise nothing is appended); the username appears only in the POST
body, and in the local variant the stored value is the rewrite of the
list containing that same record. -/
theorem spec_c10 (sL : LocalState) (s : RemoteState) (f : FormData)
    (net : FetchResult) (u : List Char) (xs : List JsValue)
    (hs : s.submissions = JsValue.arr xs) (hnet : net ≠ FetchResult.netThrow) :
    (localHandleFormSubmit sL f).submissions = sL.submissions ++ [recordJson f]
    ∧ (localHandleFormSubmit sL f).storage
        = saveSubmissions sL.authUsername sL.authPassword
            (sL.submissions ++ [recordJson f]) sL.storage
    ∧ (handleFormSubmit000 s f net).state.submissions = JsValue.arr (xs ++ [recordJson f])
    ∧ (handleFormSubmitApp s f net).state.submissions = JsValue.arr (xs ++ [recordJson f])
    ∧ recordJson f = JsValue.obj (recordFields f)
    ∧ (recordFields f).map Prod.fst
        = ["name".data, "email".data, "phone".data, "address".data, "message".data]
    ∧ "username".data ∉ (recordFields f).map Prod.fst
    ∧ postBody u f
        = strVal (JsValue.obj (("username".data, JsValue.str u) :: recordFields f)) := by
  have hpr : postRaisesApp net = false := by
    cases net <;> simp [postRaisesApp] at hnet ⊢
  refine ⟨by simp [localHandleFormSubmit], by simp [localHandleFormSubmit],
    by simp [handleFormSubmit000, spreadAppend, hs],
    by simp [handleFormSubmitApp, spreadAppend, hs, hpr],
    rfl, by simp [recordFields], by simp [recordFields], rfl⟩

/-- C10 witness at a concrete record. -/
theorem wit_c10 :
    (localHandleFormSubmit authLocal bobRecord).submissions
      = authLocal.submissions ++ [recordJson bobRecord]
    ∧ "username".data ∉ (recordFields bobRecord).map Prod.fst :=
  ⟨((spec_c10 authLocal authRemote bobRecord FetchResult.httpError "u".data []
      rfl (by decide)).1),
   ((spec_c10 authLocal authRemote bobRecord FetchResult.httpError "u".data []
      rfl (by decide)).2.2.2.2.2.2.1)⟩
